import Mathlib

/-!
Verification of the simulation core of `chance_encounter.py`
(two-agent grid game with encounter detection and a Monte Carlo
estimator).  Pure functions of the Python source are embedded as Lean
functions; the in-place mutation of the game object is embedded as
explicit state passing over a `ChanceEncounter` structure; the global
`random` source is embedded as an explicit stream `g : Nat → Nat` of
draws consumed at an explicit counter, so that `random.choice(seq)`
becomes an indexed uniform pick `seq[g c % len(seq)]`.
-/

/-- Positions are integer pairs `(col, row)`, as in the Python `Vec` alias. -/
abbrev Vec := ℤ × ℤ

/-- Grid width, config constant `GRID_W = 12`. -/
def GRID_W : Nat := 12

/-- Grid height, config constant `GRID_H = 12`. -/
def GRID_H : Nat := 12

/-- Monte Carlo default trial count, config constant `MC_TRIALS`. -/
def MC_TRIALS : Nat := 1000

/-- Monte Carlo default step cap, config constant `MC_MAX_STEPS`. -/
def MC_MAX_STEPS : Nat := 2000

/-- Color of the blue (player) agent. -/
def BLUE : ℤ × ℤ × ℤ := (76, 161, 255)

/-- Color of the red (random) agent. -/
def RED : ℤ × ℤ × ℤ := (255, 92, 92)

/-- The `Agent` dataclass: current position, previous position, color. -/
structure Agent where
  pos : Vec
  prev : Vec
  color : ℤ × ℤ × ℤ
  deriving Repr, DecidableEq

/-- `in_bounds(p)`: `0 <= p[0] < GRID_W and 0 <= p[1] < GRID_H`.  The
Python function reads the global grid dimensions; they are passed here as
explicit parameters `W`, `H` and instantiated with `GRID_W`, `GRID_H` at
every game-level call site. -/
def in_bounds (W H : Nat) (p : Vec) : Bool :=
  decide (0 ≤ p.1) && decide (p.1 < (W : ℤ)) && decide (0 ≤ p.2) && decide (p.2 < (H : ℤ))

/-- `neighbors(p)`: the four axis-aligned neighbor cells, in source order. -/
def neighbors (p : Vec) : List Vec :=
  [(p.1 + 1, p.2), (p.1 - 1, p.2), (p.1, p.2 + 1), (p.1, p.2 - 1)]

/-- `encounter(a, b)`: `a.pos == b.pos or (a.pos == b.prev and b.pos == a.prev)`. -/
def encounter (a b : Agent) : Bool :=
  decide (a.pos = b.pos) || (decide (a.pos = b.prev) && decide (b.pos = a.prev))

/-- `valid_moves(p, walls)`: the in-bounds, unblocked neighbors of `p`;
if that list is empty, the singleton `[p]`. -/
def valid_moves (W H : Nat) (p : Vec) (walls : Finset Vec) : List Vec :=
  let opts := (neighbors p).filter (fun d => in_bounds W H d && decide (d ∉ walls))
  if opts = [] then [p] else opts

/-- `random.choice(l)` given the draw stream `g` and the current draw
counter `c`: the element of `l` at index `g c % l.length`.  On a nonempty
list this is exactly one indexed element of the list (any uniform pick is
of this form for some stream value); the default value is never reached
at any call site because `valid_moves` is never empty. -/
def random_choice (g : Nat → Nat) (c : Nat) (l : List Vec) : Vec :=
  l.getD (g c % l.length) (0, 0)

/-- `random_step(p, walls)`: `random.choice(valid_moves(p, walls))`,
consuming one draw of the stream. -/
def random_step (g : Nat → Nat) (c : Nat) (W H : Nat) (p : Vec) (walls : Finset Vec) : Vec :=
  random_choice g c (valid_moves W H p walls)

/-- The mutable simulation state of the `ChanceEncounter` object:
the two agents, the wall set, the turn counter, the `met` flag and the
obstacle toggle (rendering-only fields are omitted). -/
structure ChanceEncounter where
  blue : Agent
  red : Agent
  walls : Finset Vec
  turns : Nat
  met : Bool
  obstacles_on : Bool

/-- `step_random_vs_random(self)`, embedded as the exact sequence of
field assignments of the source: if `met`, return unchanged; otherwise
copy both positions into `prev`, then assign `blue.pos` from a draw,
then assign `red.pos` from the next draw (reading the state as it is at
that point), then increment `turns`, then recompute `met`. -/
def step_random_vs_random (g : Nat → Nat) (c : Nat) (s : ChanceEncounter) : ChanceEncounter :=
  if s.met then s
  else
    let s1 := { s with blue := { s.blue with prev := s.blue.pos },
                       red := { s.red with prev := s.red.pos } }
    let s2 := { s1 with blue := { s1.blue with pos := random_step g c GRID_W GRID_H s1.blue.pos s1.walls } }
    let s3 := { s2 with red := { s2.red with pos := random_step g (c + 1) GRID_W GRID_H s2.red.pos s2.walls } }
    let s4 := { s3 with turns := s3.turns + 1 }
    { s4 with met := encounter s4.blue s4.red }

/-- Spec-side definition of `advanceTurn`, written from the spec's words
for comparison with `step_random_vs_random`: compute both steps from the
pre-turn snapshot and apply both updates simultaneously. -/
def advanceTurn (g : Nat → Nat) (c : Nat) (s : ChanceEncounter) : ChanceEncounter :=
  if s.met then s
  else
    let aNext := random_step g c GRID_W GRID_H s.blue.pos s.walls
    let bNext := random_step g (c + 1) GRID_W GRID_H s.red.pos s.walls
    let blueNew : Agent := ⟨aNext, s.blue.pos, s.blue.color⟩
    let redNew : Agent := ⟨bNext, s.red.pos, s.red.color⟩
    { s with blue := blueNew, red := redNew, turns := s.turns + 1,
             met := encounter blueNew redNew }

/-- `step_player_vs_random(self, player_dir)`: if `met`, return
unchanged; otherwise apply the player's move when the target cell is
in-bounds and unwalled (else only `blue.prev` is set, position kept),
then move red by one random step, increment `turns`, recompute `met`. -/
def step_player_vs_random (g : Nat → Nat) (c : Nat) (player_dir : Vec) (s : ChanceEncounter) :
    ChanceEncounter :=
  if s.met then s
  else
    let target : Vec := (s.blue.pos.1 + player_dir.1, s.blue.pos.2 + player_dir.2)
    let s1 :=
      if in_bounds GRID_W GRID_H target ∧ target ∉ s.walls then
        { s with blue := { s.blue with prev := s.blue.pos, pos := target } }
      else
        { s with blue := { s.blue with prev := s.blue.pos } }
    let s2 := { s1 with red :=
      { s1.red with prev := s1.red.pos, pos := random_step g c GRID_W GRID_H s1.red.pos s1.walls } }
    let s3 := { s2 with turns := s2.turns + 1 }
    { s3 with met := encounter s3.blue s3.red }

/-- The inner per-trial loop of `monte_carlo`: from current positions
`a`, `b` and previous positions `a_prev`, `b_prev`, with `steps` steps
already taken and `fuel` loop iterations remaining (`range(max_steps)`),
run until the encounter condition holds or the fuel runs out.  Returns
`some k` with the 1-indexed meeting step `k` (the value added to the
step sum) or `none` on cap exhaustion, together with the draw counter
after the loop.  Each iteration consumes two draws: `random_step(a, set())`
then `random_step(b, set())`. -/
def mc_trial (g : Nat → Nat) : Nat → Vec → Vec → Vec → Vec → Nat → Nat → Option Nat × Nat
  | c, _, _, _, _, _, 0 => (none, c)
  | c, a, b, a_prev, b_prev, steps, fuel + 1 =>
    let a_next := random_step g c GRID_W GRID_H a ∅
    let b_next := random_step g (c + 1) GRID_W GRID_H b ∅
    if a_next = b_next ∨ (a_next = b_prev ∧ b_next = a_prev) then (some (steps + 1), c + 2)
    else mc_trial g (c + 2) a_next b_next a b (steps + 1) fuel

/-- The outer trial loop of `monte_carlo`: accumulates the meet count
and the total step sum across `t` remaining trials, threading the draw
counter.  Every trial starts fresh at `a = (0, 0)`,
`b = (GRID_W - 1, GRID_H - 1)` with `a_prev, b_prev = a, b` and zero
steps. -/
def mc_loop (g : Nat → Nat) (max_steps : Nat) : Nat → Nat → Nat → Nat → Nat × Nat
  | _, meets, total_steps, 0 => (meets, total_steps)
  | c, meets, total_steps, t + 1 =>
    let a : Vec := (0, 0)
    let b : Vec := ((GRID_W : ℤ) - 1, (GRID_H : ℤ) - 1)
    let r := mc_trial g c a b a b 0 max_steps
    match r.1 with
    | some k => mc_loop g max_steps r.2 (meets + 1) (total_steps + k) t
    | none => mc_loop g max_steps r.2 meets total_steps t

/-- `monte_carlo(self, trials, max_steps)`: returns
`(avg_steps, meet_rate)`.  Python's `range(n)` on a zero or negative
`n` runs no iterations, embedded via `Int.toNat`.  The float sentinel
`float('inf')` for an undefined average is rendered as `none`;
divisions are over `ℚ`.  The body never reads `self` (obstacles are
always `set()` inside the trials), so the state argument `s` is unused,
exactly as in the source. -/
def monte_carlo (s : ChanceEncounter) (g : Nat → Nat) (trials : Int) (max_steps : Int) :
    Option ℚ × ℚ :=
  let r := mc_loop g max_steps.toNat 0 0 0 trials.toNat
  let meets := r.1
  let total_steps := r.2
  let meet_rate : ℚ := if trials ≠ 0 then (meets : ℚ) / (trials : ℚ) else 0
  let avg_steps : Option ℚ := if meets ≠ 0 then some ((total_steps : ℚ) / (meets : ℚ)) else none
  (avg_steps, meet_rate)

/-- A concrete initial round state, as built by `reset_round` with
obstacles off: both agents at their start corners with `prev = pos`. -/
def initState : ChanceEncounter :=
  { blue := ⟨(0, 0), (0, 0), BLUE⟩
    red := ⟨((GRID_W : ℤ) - 1, (GRID_H : ℤ) - 1), ((GRID_W : ℤ) - 1, (GRID_H : ℤ) - 1), RED⟩
    walls := ∅
    turns := 0
    met := false
    obstacles_on := false }

/-- A concrete state whose round has already ended (`met = true`),
used to exercise the terminal-state behavior. -/
def metState : ChanceEncounter :=
  { initState with met := true }

/-- A concrete draw stream that always picks index `0`. -/
def gZero : Nat → Nat := fun _ => 0

/-- Spec-side definition of the per-trial inner loop of
`MonteCarloEstimator.run`, written from the spec's words for comparison
with `mc_trial`: the obstacle set is an explicit parameter instead of
the hard-coded `set()`. -/
def run_trial (g : Nat → Nat) (walls : Finset Vec) :
    Nat → Vec → Vec → Vec → Vec → Nat → Nat → Option Nat × Nat
  | c, _, _, _, _, _, 0 => (none, c)
  | c, a, b, a_prev, b_prev, steps, fuel + 1 =>
    let a_next := random_step g c GRID_W GRID_H a walls
    let b_next := random_step g (c + 1) GRID_W GRID_H b walls
    if a_next = b_next ∨ (a_next = b_prev ∧ b_next = a_prev) then (some (steps + 1), c + 2)
    else run_trial g walls (c + 2) a_next b_next a b (steps + 1) fuel

/-- Spec-side definition of the trial loop of `MonteCarloEstimator.run`,
written from the spec's words for comparison with `mc_loop`: each trial
instantiates two fresh agents at explicit, configured start corners with
previous equal to current, over an explicit obstacle set. -/
def run_trials (g : Nat → Nat) (walls : Finset Vec) (aStart bStart : Vec) (max_steps : Nat) :
    Nat → Nat → Nat → Nat → Nat × Nat
  | _, meets, total_steps, 0 => (meets, total_steps)
  | c, meets, total_steps, t + 1 =>
    let r := run_trial g walls c aStart bStart aStart bStart 0 max_steps
    match r.1 with
    | some k => run_trials g walls aStart bStart max_steps r.2 (meets + 1) (total_steps + k) t
    | none => run_trials g walls aStart bStart max_steps r.2 meets total_steps t

/-! ## Basic lemmas about moves -/

/-- Unfolding `valid_moves` in the fallback case: no neighbor passes the
filter, so the singleton `[p]` is returned. -/
theorem valid_moves_eq_self (W H : Nat) (p : Vec) (walls : Finset Vec)
    (h : (neighbors p).filter (fun d => in_bounds W H d && decide (d ∉ walls)) = []) :
    valid_moves W H p walls = [p] := by
  unfold valid_moves
  dsimp only
  rw [if_pos h]

/-- Unfolding `valid_moves` in the main case: some neighbor passes the
filter, so the filtered neighbor list is returned. -/
theorem valid_moves_eq_filter (W H : Nat) (p : Vec) (walls : Finset Vec)
    (h : ¬ (neighbors p).filter (fun d => in_bounds W H d && decide (d ∉ walls)) = []) :
    valid_moves W H p walls
      = (neighbors p).filter (fun d => in_bounds W H d && decide (d ∉ walls)) := by
  unfold valid_moves
  dsimp only
  rw [if_neg h]

/-- `valid_moves` never returns the empty list: either the filtered
neighbor list is nonempty, or the fallback singleton `[p]` is returned. -/
theorem valid_moves_ne_nil (W H : Nat) (p : Vec) (walls : Finset Vec) :
    valid_moves W H p walls ≠ [] := by
  by_cases h : (neighbors p).filter (fun d => in_bounds W H d && decide (d ∉ walls)) = []
  · rw [valid_moves_eq_self W H p walls h]; simp
  · rw [valid_moves_eq_filter W H p walls h]; exact h

/-- A uniform pick from a nonempty list is an element of the list. -/
theorem random_choice_mem (g : Nat → Nat) (c : Nat) (l : List Vec) (h : l ≠ []) :
    random_choice g c l ∈ l := by
  have hlen : 0 < l.length := List.length_pos.mpr h
  have hlt : g c % l.length < l.length := Nat.mod_lt _ hlen
  unfold random_choice
  rw [List.getD_eq_getElem l (0, 0) hlt]
  exact List.getElem_mem hlt

/-- `random_step` always lands in `valid_moves` of the starting cell. -/
theorem random_step_mem (g : Nat → Nat) (c : Nat) (W H : Nat) (p : Vec) (walls : Finset Vec) :
    random_step g c W H p walls ∈ valid_moves W H p walls :=
  random_choice_mem g c _ (valid_moves_ne_nil W H p walls)

/-! ## C1: encounter detection -/

/-- C1: `encounter` returns true iff the agents' current positions are
equal, or A's current equals B's previous and B's current equals A's
previous; in particular it returns true on the crossing scenario
`a.pos = (3,3)`, `a.prev = (2,3)`, `b.pos = (2,3)`, `b.prev = (3,3)`,
where the current positions differ. -/
theorem encounter_meet_or_cross :
    (∀ a b : Agent, encounter a b = true ↔
      (a.pos = b.pos ∨ (a.pos = b.prev ∧ b.pos = a.prev))) ∧
    encounter ⟨(3, 3), (2, 3), BLUE⟩ ⟨(2, 3), (3, 3), RED⟩ = true ∧
    ((3 : ℤ), (3 : ℤ)) ≠ ((2 : ℤ), (3 : ℤ)) := by
  refine ⟨fun a b => ?_, by decide, by decide⟩
  simp [encounter]

/-! ## C2: legal moves are sound and non-empty -/

/-- C2: for every grid with positive dimensions, every wall set and
every cell, `valid_moves` is non-empty, and either every returned
position is an in-bounds, unblocked axis-aligned neighbor of `p`, or no
such neighbor exists and the result is exactly the singleton `[p]`. -/
theorem valid_moves_sound (W H : Nat) (hW : 1 ≤ W) (hH : 1 ≤ H)
    (walls : Finset Vec) (p : Vec) :
    valid_moves W H p walls ≠ [] ∧
    ((∀ q ∈ valid_moves W H p walls, q ∈ neighbors p ∧ in_bounds W H q = true ∧ q ∉ walls) ∨
      ((∀ q ∈ neighbors p, ¬(in_bounds W H q = true ∧ q ∉ walls)) ∧
        valid_moves W H p walls = [p])) := by
  refine ⟨valid_moves_ne_nil W H p walls, ?_⟩
  by_cases h : (neighbors p).filter (fun d => in_bounds W H d && decide (d ∉ walls)) = []
  · right
    refine ⟨fun q hq hcon => ?_, valid_moves_eq_self W H p walls h⟩
    have := List.filter_eq_nil_iff.mp h q hq
    simp only [Bool.and_eq_true, decide_eq_true_eq, not_and] at this
    exact this hcon.1 hcon.2
  · left
    intro q hq
    rw [valid_moves_eq_filter W H p walls h] at hq
    have := List.mem_filter.mp hq
    simp only [Bool.and_eq_true, decide_eq_true_eq] at this
    exact ⟨this.1, this.2.1, this.2.2⟩

/-- Witness for C2 at the 1×1 grid with no walls and cell `(0,0)`
(the fallback case: no in-bounds neighbor exists). -/
theorem valid_moves_sound_witness :
    (1 ≤ 1 ∧ 1 ≤ 1) ∧
    (valid_moves 1 1 ((0 : ℤ), (0 : ℤ)) ∅ ≠ [] ∧
    ((∀ q ∈ valid_moves 1 1 ((0 : ℤ), (0 : ℤ)) ∅,
        q ∈ neighbors ((0 : ℤ), (0 : ℤ)) ∧ in_bounds 1 1 q = true ∧ q ∉ (∅ : Finset Vec)) ∨
      ((∀ q ∈ neighbors ((0 : ℤ), (0 : ℤ)), ¬(in_bounds 1 1 q = true ∧ q ∉ (∅ : Finset Vec))) ∧
        valid_moves 1 1 ((0 : ℤ), (0 : ℤ)) ∅ = [((0 : ℤ), (0 : ℤ))]))) :=
  ⟨⟨le_refl 1, le_refl 1⟩, valid_moves_sound 1 1 (le_refl 1) (le_refl 1) ∅ ((0 : ℤ), (0 : ℤ))⟩

/-! ## Lemmas about the Monte Carlo loops -/

/-- If the inner trial loop reports a meeting step `k`, then `k` is
strictly greater than the step count already taken, exceeds it by at
most the remaining fuel, and the loop consumed exactly two draws per
executed step — in particular no draw happens after the meeting turn. -/
theorem mc_trial_some_spec (g : Nat → Nat) :
    ∀ (fuel c steps k c2 : Nat) (a b ap bp : Vec),
      mc_trial g c a b ap bp steps fuel = (some k, c2) →
      steps < k ∧ k ≤ steps + fuel ∧ c2 = c + 2 * (k - steps) := by
  intro fuel
  induction fuel with
  | zero =>
    intro c steps k c2 a b ap bp h
    simp [mc_trial] at h
  | succ n ih =>
    intro c steps k c2 a b ap bp h
    rw [mc_trial] at h
    split at h
    · rw [Prod.mk.injEq, Option.some.injEq] at h
      omega
    · have := ih (c + 2) (steps + 1) k c2 _ _ _ _ h
      omega

/-- The draw counter never decreases across the inner trial loop and
advances by at most two draws per unit of fuel. -/
theorem mc_trial_counter_bounds (g : Nat → Nat) :
    ∀ (fuel c steps : Nat) (a b ap bp : Vec),
      c ≤ (mc_trial g c a b ap bp steps fuel).2 ∧
      (mc_trial g c a b ap bp steps fuel).2 ≤ c + 2 * fuel := by
  intro fuel
  induction fuel with
  | zero => intro c steps a b ap bp; simp [mc_trial]
  | succ n ih =>
    intro c steps a b ap bp
    rw [mc_trial]
    split
    · dsimp only
      omega
    · have := ih (c + 2) (steps + 1) (random_step g c GRID_W GRID_H a ∅)
        (random_step g (c + 1) GRID_W GRID_H b ∅) a b
      omega

/-- `random_step` only reads the draw stream at its own counter. -/
theorem random_step_congr (g1 g2 : Nat → Nat) (c : Nat) (W H : Nat) (p : Vec)
    (walls : Finset Vec) (h : g1 c = g2 c) :
    random_step g1 c W H p walls = random_step g2 c W H p walls := by
  unfold random_step random_choice
  rw [h]

/-- The inner trial loop reads the draw stream only below `c + 2 * fuel`:
two streams agreeing there produce identical trial results. -/
theorem mc_trial_congr (g1 g2 : Nat → Nat) :
    ∀ (fuel c steps : Nat) (a b ap bp : Vec),
      (∀ i, i < c + 2 * fuel → g1 i = g2 i) →
      mc_trial g1 c a b ap bp steps fuel = mc_trial g2 c a b ap bp steps fuel := by
  intro fuel
  induction fuel with
  | zero => intro c steps a b ap bp _; rw [mc_trial, mc_trial]
  | succ n ih =>
    intro c steps a b ap bp h
    rw [mc_trial, mc_trial]
    have ha : random_step g1 c GRID_W GRID_H a ∅ = random_step g2 c GRID_W GRID_H a ∅ :=
      random_step_congr g1 g2 c GRID_W GRID_H a ∅ (h c (by omega))
    have hb : random_step g1 (c + 1) GRID_W GRID_H b ∅
        = random_step g2 (c + 1) GRID_W GRID_H b ∅ :=
      random_step_congr g1 g2 (c + 1) GRID_W GRID_H b ∅ (h (c + 1) (by omega))
    rw [ha, hb]
    split
    · rfl
    · exact ih (c + 2) (steps + 1) _ _ a b (fun i hi => h i (by omega))

/-- The outer trial loop reads the draw stream only below
`c + 2 * cap * t`: two streams agreeing there produce identical
aggregate counts. -/
theorem mc_loop_congr (g1 g2 : Nat → Nat) (cap : Nat) :
    ∀ (t c meets total : Nat),
      (∀ i, i < c + 2 * cap * t → g1 i = g2 i) →
      mc_loop g1 cap c meets total t = mc_loop g2 cap c meets total t := by
  intro t
  induction t with
  | zero => intro c meets total _; rw [mc_loop, mc_loop]
  | succ n ih =>
    intro c meets total h
    rw [mc_loop, mc_loop]
    have htr : mc_trial g1 c ((0 : ℤ), (0 : ℤ)) ((GRID_W : ℤ) - 1, (GRID_H : ℤ) - 1)
        ((0 : ℤ), (0 : ℤ)) ((GRID_W : ℤ) - 1, (GRID_H : ℤ) - 1) 0 cap
        = mc_trial g2 c ((0 : ℤ), (0 : ℤ)) ((GRID_W : ℤ) - 1, (GRID_H : ℤ) - 1)
        ((0 : ℤ), (0 : ℤ)) ((GRID_W : ℤ) - 1, (GRID_H : ℤ) - 1) 0 cap :=
      mc_trial_congr g1 g2 cap c 0 _ _ _ _ (fun i hi => h i (by nlinarith))
    rw [htr]
    have hcle := (mc_trial_counter_bounds g2 cap c 0 ((0 : ℤ), (0 : ℤ))
      ((GRID_W : ℤ) - 1, (GRID_H : ℤ) - 1) ((0 : ℤ), (0 : ℤ)) ((GRID_W : ℤ) - 1, (GRID_H : ℤ) - 1)).2
    split
    · exact ih _ _ _ (fun i hi => h i (by nlinarith))
    · exact ih _ _ _ (fun i hi => h i (by nlinarith))

/-- Loop invariant of the outer trial loop: it adds `dm ≤ t` meets and a
step sum `dt` with `dm ≤ dt ≤ dm * cap` (each meeting trial contributes
a step count between `1` and the cap). -/
theorem mc_loop_bounds (g : Nat → Nat) (cap : Nat) :
    ∀ (t c meets total : Nat), ∃ dm dt : Nat,
      mc_loop g cap c meets total t = (meets + dm, total + dt) ∧
      dm ≤ t ∧ dm ≤ dt ∧ dt ≤ dm * cap := by
  intro t
  induction t with
  | zero =>
    intro c meets total
    exact ⟨0, 0, by rw [mc_loop]; simp, by omega, by omega, by omega⟩
  | succ n ih =>
    intro c meets total
    rw [mc_loop]
    split
    · next k heq =>
      have hpair : mc_trial g c ((0 : ℤ), (0 : ℤ)) ((GRID_W : ℤ) - 1, (GRID_H : ℤ) - 1)
          ((0 : ℤ), (0 : ℤ)) ((GRID_W : ℤ) - 1, (GRID_H : ℤ) - 1) 0 cap
          = (some k, (mc_trial g c ((0 : ℤ), (0 : ℤ)) ((GRID_W : ℤ) - 1, (GRID_H : ℤ) - 1)
              ((0 : ℤ), (0 : ℤ)) ((GRID_W : ℤ) - 1, (GRID_H : ℤ) - 1) 0 cap).2) := by
        rw [← heq]
      have hk := mc_trial_some_spec g cap c 0 k _ _ _ _ _ hpair
      obtain ⟨dm, dt, hloop, h1, h2, h3⟩ := ih _ (meets + 1) (total + k)
      refine ⟨dm + 1, dt + k, ?_, by omega, by omega, ?_⟩
      · rw [hloop]; congr 1 <;> omega
      · have : dt ≤ dm * cap := h3
        have hkcap : k ≤ cap := by omega
        nlinarith
    · next heq =>
      obtain ⟨dm, dt, hloop, h1, h2, h3⟩ := ih _ meets total
      exact ⟨dm, dt, hloop, by omega, h2, h3⟩

/-- With a zero step cap every trial runs no steps, so nothing is
accumulated. -/
theorem mc_loop_zero_cap (g : Nat → Nat) :
    ∀ (t c meets total : Nat), mc_loop g 0 c meets total t = (meets, total) := by
  intro t
  induction t with
  | zero => intro c meets total; rw [mc_loop]
  | succ n ih =>
    intro c meets total
    rw [mc_loop]
    split
    · next k heq => rw [mc_trial] at heq; simp at heq
    · next heq => exact ih _ meets total

/-! ## C3, C4, C5: Monte Carlo aggregation -/

/-- C3: the Monte Carlo aggregate satisfies
`meet_rate = meets / trials` (and `0.0` when `trials = 0`), and
`avg_steps = total_steps / meets` when `meets > 0`, else the
positive-infinity sentinel (`none`); each division is guarded by a
nonzero test, so no division by zero occurs. -/
theorem monte_carlo_aggregate (s : ChanceEncounter) (g : Nat → Nat) (trials max_steps : Int) :
    (trials ≠ 0 →
      (monte_carlo s g trials max_steps).2
        = ((mc_loop g max_steps.toNat 0 0 0 trials.toNat).1 : ℚ) / (trials : ℚ)) ∧
    (trials = 0 → (monte_carlo s g trials max_steps).2 = 0) ∧
    ((mc_loop g max_steps.toNat 0 0 0 trials.toNat).1 ≠ 0 →
      (monte_carlo s g trials max_steps).1
        = some (((mc_loop g max_steps.toNat 0 0 0 trials.toNat).2 : ℚ)
            / ((mc_loop g max_steps.toNat 0 0 0 trials.toNat).1 : ℚ))) ∧
    ((mc_loop g max_steps.toNat 0 0 0 trials.toNat).1 = 0 →
      (monte_carlo s g trials max_steps).1 = none) := by
  refine ⟨fun ht => ?_, fun ht => ?_, fun hm => ?_, fun hm => ?_⟩
  · simp [monte_carlo, ht]
  · simp [monte_carlo, ht]
  · simp [monte_carlo, hm]
  · simp [monte_carlo, hm]

/-- Witness for C3: with one trial and cap one, the meet rate is the
meet count over the trial count. -/
theorem monte_carlo_aggregate_witness :
    (1 : Int) ≠ 0 ∧
    (monte_carlo initState gZero 1 1).2
      = ((mc_loop gZero (1 : Int).toNat 0 0 0 (1 : Int).toNat).1 : ℚ) / ((1 : Int) : ℚ) :=
  ⟨by decide, (monte_carlo_aggregate initState gZero 1 1).1 (by decide)⟩

/-- `monte_carlo` on a zero or negative trial count or step cap returns
the ordinary aggregate `(avg_steps, meet_rate) = (none, 0)` rather than
signalling any error: a zero/negative `trials` makes `range(trials)`
empty, and a zero/negative `max_steps` makes every trial end without a
meeting. -/
theorem monte_carlo_nonpos_aux (s : ChanceEncounter) (g : Nat → Nat) (trials max_steps : Int)
    (h : trials ≤ 0 ∨ max_steps ≤ 0) :
    monte_carlo s g trials max_steps = (none, 0) := by
  rcases h with h | h
  · have ht0 : trials.toNat = 0 := by omega
    unfold monte_carlo
    rw [ht0]
    rw [mc_loop]
    by_cases h2 : trials = 0 <;> simp [h2]
  · have hm0 : max_steps.toNat = 0 := by omega
    unfold monte_carlo
    rw [hm0, mc_loop_zero_cap g trials.toNat 0 0 0]
    by_cases h2 : trials = 0 <;> simp [h2]

/-- Counterexample for C4: calls with a zero trial count, a negative
trial count, or a zero step cap do not fail with a configuration error —
each returns the ordinary result `(none, 0)` (infinite-average sentinel
and zero meet rate). -/
theorem monte_carlo_returns_on_invalid_config :
    monte_carlo initState gZero 0 2000 = (none, 0) ∧
    monte_carlo initState gZero (-5) 2000 = (none, 0) ∧
    monte_carlo initState gZero 5 0 = (none, 0) :=
  ⟨monte_carlo_nonpos_aux initState gZero 0 2000 (Or.inl (by decide)),
   monte_carlo_nonpos_aux initState gZero (-5) 2000 (Or.inl (by decide)),
   monte_carlo_nonpos_aux initState gZero 5 0 (Or.inr (by decide))⟩

/-- C4 (amended): `monte_carlo` performs no input validation; for every
call with a zero or negative trial count or step cap it silently returns
the aggregate `(none, 0)` — the infinite-average sentinel with a zero
meet rate — instead of failing fast. -/
theorem monte_carlo_no_validation (s : ChanceEncounter) (g : Nat → Nat) (trials max_steps : Int)
    (h : trials ≤ 0 ∨ max_steps ≤ 0) :
    monte_carlo s g trials max_steps = (none, 0) :=
  monte_carlo_nonpos_aux s g trials max_steps h

/-- Witness for C4 (amended) at `trials = 0`, `max_steps = 2000`. -/
theorem monte_carlo_no_validation_witness :
    ((0 : Int) ≤ 0 ∨ (2000 : Int) ≤ 0) ∧
    monte_carlo metState gZero 0 2000 = (none, 0) :=
  ⟨Or.inl (by decide), monte_carlo_no_validation metState gZero 0 2000 (Or.inl (by decide))⟩

/-- C5: for trial count and step cap at least `1`, the meet rate lies in
`[0, 1]`, and whenever the average is defined (`some q`, i.e. at least
one trial met) it satisfies `1 ≤ q ≤ max_steps`, because every meeting
trial contributes a step count between `1` and the cap. -/
theorem monte_carlo_stats_bounds (s : ChanceEncounter) (g : Nat → Nat) (trials max_steps : Int)
    (ht : 1 ≤ trials) (hm : 1 ≤ max_steps) :
    0 ≤ (monte_carlo s g trials max_steps).2 ∧
    (monte_carlo s g trials max_steps).2 ≤ 1 ∧
    (∀ q : ℚ, (monte_carlo s g trials max_steps).1 = some q →
      1 ≤ q ∧ q ≤ (max_steps : ℚ)) := by
  obtain ⟨dm, dt, hloop, h1, h2, h3⟩ := mc_loop_bounds g max_steps.toNat trials.toNat 0 0 0
  have ht0 : trials ≠ 0 := by omega
  have htq : (0 : ℚ) < (trials : ℚ) := by exact_mod_cast (by omega : (0 : ℤ) < trials)
  have htn : ((trials.toNat : ℚ)) = (trials : ℚ) := by
    rw [← Int.toNat_of_nonneg (by omega : (0 : ℤ) ≤ trials)]
    push_cast
    rfl
  have hmn : ((max_steps.toNat : ℚ)) = (max_steps : ℚ) := by
    rw [← Int.toNat_of_nonneg (by omega : (0 : ℤ) ≤ max_steps)]
    push_cast
    rfl
  refine ⟨?_, ?_, ?_⟩
  · simp only [monte_carlo, hloop, ht0, if_true, ne_eq, not_false_iff]
    simp only [Nat.zero_add]
    positivity
  · simp only [monte_carlo, hloop, ht0, if_true, ne_eq, not_false_iff]
    simp only [Nat.zero_add]
    rw [div_le_one htq]
    rw [← htn]
    exact_mod_cast h1
  · intro q hq
    simp only [monte_carlo, hloop] at hq
    by_cases hdm : dm = 0
    · simp [hdm] at hq
    · have hdm' : (0 : ℚ) < (dm : ℚ) := by exact_mod_cast Nat.pos_of_ne_zero hdm
      simp only [Nat.zero_add, hdm, if_true, ne_eq, not_false_iff, Option.some.injEq] at hq
      subst hq
      constructor
      · rw [one_le_div hdm']
        exact_mod_cast h2
      · rw [div_le_iff hdm', ← hmn]
        calc (dt : ℚ) ≤ ((dm * max_steps.toNat : Nat) : ℚ) := by exact_mod_cast h3
          _ = (max_steps.toNat : ℚ) * (dm : ℚ) := by push_cast; ring

/-- Witness for C5 at one trial with cap one. -/
theorem monte_carlo_stats_bounds_witness :
    ((1 : Int) ≤ 1 ∧ (1 : Int) ≤ 1) ∧
    (0 ≤ (monte_carlo initState gZero 1 1).2 ∧
    (monte_carlo initState gZero 1 1).2 ≤ 1 ∧
    (∀ q : ℚ, (monte_carlo initState gZero 1 1).1 = some q →
      1 ≤ q ∧ q ≤ ((1 : Int) : ℚ))) :=
  ⟨⟨le_refl 1, le_refl 1⟩,
   monte_carlo_stats_bounds initState gZero 1 1 (le_refl 1) (le_refl 1)⟩

/-! ## C6, C7: turn structure -/

/-- C6: in one random-vs-random turn, both agents' new positions are
drawn from the legal moves of their respective pre-turn positions — the
red draw does not see blue's already-updated position — so the
sequential-assignment turn equals the spec's simultaneous
`advanceTurn`. -/
theorem step_random_vs_random_simultaneous (g : Nat → Nat) (c : Nat) (s : ChanceEncounter)
    (h : s.met = false) :
    (step_random_vs_random g c s).blue.pos ∈ valid_moves GRID_W GRID_H s.blue.pos s.walls ∧
    (step_random_vs_random g c s).red.pos ∈ valid_moves GRID_W GRID_H s.red.pos s.walls ∧
    step_random_vs_random g c s = advanceTurn g c s := by
  refine ⟨?_, ?_, ?_⟩ <;>
    simp [step_random_vs_random, advanceTurn, h, random_step_mem]

/-- Witness for C6 at the initial round state. -/
theorem step_random_vs_random_simultaneous_witness :
    initState.met = false ∧
    ((step_random_vs_random gZero 0 initState).blue.pos
        ∈ valid_moves GRID_W GRID_H initState.blue.pos initState.walls ∧
      (step_random_vs_random gZero 0 initState).red.pos
        ∈ valid_moves GRID_W GRID_H initState.red.pos initState.walls ∧
      step_random_vs_random gZero 0 initState = advanceTurn gZero 0 initState) :=
  ⟨rfl, step_random_vs_random_simultaneous gZero 0 initState rfl⟩

/-- C7: once the `met` flag is set, `step_random_vs_random` is the
identity — agents' positions, previous positions and the turn counter
are all unchanged; and within a Monte Carlo trial that meets at step
`k`, the loop has consumed exactly `2 * k` draws (two per executed
step), so no step is taken after the encounter turn. -/
theorem encounter_is_terminal (g : Nat → Nat) (c : Nat) (s : ChanceEncounter)
    (h : s.met = true) :
    step_random_vs_random g c s = s ∧
    (∀ (a b ap bp : Vec) (fuel k c2 : Nat),
      mc_trial g c a b ap bp 0 fuel = (some k, c2) → c2 = c + 2 * k) := by
  refine ⟨by simp [step_random_vs_random, h], ?_⟩
  intro a b ap bp fuel k c2 hmc
  have := (mc_trial_some_spec g fuel c 0 k c2 a b ap bp hmc).2.2
  omega

/-- Witness for C7 at a state whose round has ended. -/
theorem encounter_is_terminal_witness :
    metState.met = true ∧
    (step_random_vs_random gZero 0 metState = metState ∧
      (∀ (a b ap bp : Vec) (fuel k c2 : Nat),
        mc_trial gZero 0 a b ap bp 0 fuel = (some k, c2) → c2 = 0 + 2 * k)) :=
  ⟨rfl, encounter_is_terminal gZero 0 metState rfl⟩

/-! ## C8, C9: Monte Carlo determinism and openness -/

/-- C8: `monte_carlo` is deterministic given the random source and keeps
no hidden state: two runs whose draw streams agree on the (at most
`2 * max_steps * trials`) consumed draws produce identical
`(avg_steps, meet_rate)` results, whatever the two game states are. -/
theorem monte_carlo_deterministic (s1 s2 : ChanceEncounter) (g1 g2 : Nat → Nat)
    (trials max_steps : Int)
    (h : ∀ i, i < 2 * max_steps.toNat * trials.toNat → g1 i = g2 i) :
    monte_carlo s1 g1 trials max_steps = monte_carlo s2 g2 trials max_steps := by
  have hc := mc_loop_congr g1 g2 max_steps.toNat trials.toNat 0 0 0
    (fun i hi => h i (by omega))
  unfold monte_carlo
  rw [hc]

/-- Witness for C8: two runs over the same stream coincide. -/
theorem monte_carlo_deterministic_witness :
    (∀ i, i < 2 * (1 : Int).toNat * (1 : Int).toNat → gZero i = gZero i) ∧
    monte_carlo initState gZero 1 1 = monte_carlo metState gZero 1 1 :=
  ⟨fun _ _ => rfl, monte_carlo_deterministic initState metState gZero gZero 1 1 (fun _ _ => rfl)⟩

/-- C9: the Monte Carlo batch ignores the interactive state entirely
(same result for any two states, hence independent of the obstacle
toggle and generated walls), and its trial loop coincides with the
spec-side loop that starts every trial with two fresh agents at the
opposite corners `(0,0)` and `(GRID_W-1, GRID_H-1)` (previous equal to
current) over the empty obstacle set. -/
theorem monte_carlo_open_field (s1 s2 : ChanceEncounter) (g : Nat → Nat)
    (trials max_steps : Int) :
    monte_carlo s1 g trials max_steps = monte_carlo s2 g trials max_steps ∧
    (∀ (cap c meets total t : Nat),
      mc_loop g cap c meets total t
        = run_trials g ∅ ((0 : ℤ), (0 : ℤ)) ((GRID_W : ℤ) - 1, (GRID_H : ℤ) - 1)
            cap c meets total t) := by
  have htrial : ∀ (fuel c steps : Nat) (a b ap bp : Vec),
      mc_trial g c a b ap bp steps fuel = run_trial g ∅ c a b ap bp steps fuel := by
    intro fuel
    induction fuel with
    | zero => intro c steps a b ap bp; rw [mc_trial, run_trial]
    | succ n ih =>
      intro c steps a b ap bp
      rw [mc_trial, run_trial]
      split
      · rfl
      · exact ih (c + 2) (steps + 1) _ _ a b
  refine ⟨rfl, ?_⟩
  intro cap c meets total t
  induction t generalizing c meets total with
  | zero => rw [mc_loop, run_trials]
  | succ n ih =>
    rw [mc_loop, run_trials, htrial]
    split
    · exact ih _ _ _
    · exact ih _ _ _

/-! ## C10: illegal player move still consumes the turn -/

/-- C10: in player-vs-random mode, when the round is live and the
requested direction leads out of bounds or into a wall, the player
keeps its position with `prev` set to it, yet the turn is consumed: red
still takes one legal random step from its pre-turn cell, the turn
counter increments by exactly one, and the encounter check is performed
on the post-turn agents. -/
theorem step_player_illegal_move (g : Nat → Nat) (c : Nat) (d : Vec) (s : ChanceEncounter)
    (h : s.met = false)
    (hbad : ¬(in_bounds GRID_W GRID_H (s.blue.pos.1 + d.1, s.blue.pos.2 + d.2) = true ∧
        (s.blue.pos.1 + d.1, s.blue.pos.2 + d.2) ∉ s.walls)) :
    (step_player_vs_random g c d s).blue.pos = s.blue.pos ∧
    (step_player_vs_random g c d s).blue.prev = s.blue.pos ∧
    (step_player_vs_random g c d s).red.pos ∈ valid_moves GRID_W GRID_H s.red.pos s.walls ∧
    (step_player_vs_random g c d s).red.prev = s.red.pos ∧
    (step_player_vs_random g c d s).turns = s.turns + 1 ∧
    (step_player_vs_random g c d s).met
      = encounter (step_player_vs_random g c d s).blue (step_player_vs_random g c d s).red := by
  refine ⟨?_, ?_, ?_, ?_, ?_, ?_⟩ <;>
    simp [step_player_vs_random, h, hbad, random_step_mem]

/-- Witness for C10: moving left from the corner `(0,0)` is out of
bounds; the turn is still consumed. -/
theorem step_player_illegal_move_witness :
    (initState.met = false ∧
      ¬(in_bounds GRID_W GRID_H
          (initState.blue.pos.1 + (-1 : ℤ), initState.blue.pos.2 + (0 : ℤ)) = true ∧
        (initState.blue.pos.1 + (-1 : ℤ), initState.blue.pos.2 + (0 : ℤ)) ∉ initState.walls)) ∧
    ((step_player_vs_random gZero 0 ((-1 : ℤ), (0 : ℤ)) initState).blue.pos
        = initState.blue.pos ∧
      (step_player_vs_random gZero 0 ((-1 : ℤ), (0 : ℤ)) initState).blue.prev
        = initState.blue.pos ∧
      (step_player_vs_random gZero 0 ((-1 : ℤ), (0 : ℤ)) initState).red.pos
        ∈ valid_moves GRID_W GRID_H initState.red.pos initState.walls ∧
      (step_player_vs_random gZero 0 ((-1 : ℤ), (0 : ℤ)) initState).red.prev
        = initState.red.pos ∧
      (step_player_vs_random gZero 0 ((-1 : ℤ), (0 : ℤ)) initState).turns
        = initState.turns + 1 ∧
      (step_player_vs_random gZero 0 ((-1 : ℤ), (0 : ℤ)) initState).met
        = encounter (step_player_vs_random gZero 0 ((-1 : ℤ), (0 : ℤ)) initState).blue
            (step_player_vs_random gZero 0 ((-1 : ℤ), (0 : ℤ)) initState).red) :=
  ⟨⟨rfl, by decide⟩,
   step_player_illegal_move gZero 0 ((-1 : ℤ), (0 : ℤ)) initState rfl (by decide)⟩
